import Mathlib

/-!
Verification of the hyperparameter-search mechanism described by the
repository's specification (parameter specs, search plans, evaluation,
best-result selection, bounded parallel dispatch).

The repository fragment under `src/` contains only the tutorial notebook
`tutorials/advanced/Hyperparameter_Search.ipynb`, which is a *caller* of the
search utilities (`RangeParameter`, `ListParameter`, `RandomSearch`,
`GridSearch` from `snorkel.learning`); the implementation of those utilities
is not part of the fragment.  Following the spec-modelling rule, every
definition below whose doc comment starts with `Modelled from the spec:` is a
faithful shallow embedding of the spec's description of the missing code.
Numeric parameter values are embedded as exact rationals (`ℚ`).
-/

/-- Modelled from the spec: the fatal error conditions of the search core
(§7 of the spec): `InvalidRangeError` for malformed ranges,
`InvalidArgumentError` for missing/invalid required arguments such as `n` in
sampled mode, and `SearchExhaustedError` when no configuration produced a
usable score. -/
inductive SearchError where
  | invalidRange
  | invalidArgument
  | searchExhausted
  deriving DecidableEq, Repr

/-- Modelled from the spec: `RangeParameter{name, low, high, step, log_base}`
(§3 of the spec) — a numeric range axis with a step and optional logarithmic
base.  The implementation of `RangeParameter` is not under `src/`; the
notebook only constructs it, e.g.
`RangeParameter('step_size', 1e-6, 1e-2, step=1, log_base=10)`. -/
structure RangeParameter where
  name : String
  low : ℚ
  high : ℚ
  step : ℚ
  log_base : Option ℕ := none
  deriving DecidableEq, Repr

/-- Modelled from the spec: the linear value grid of a `RangeParameter`
without `log_base` — `low, low+step, low+2*step, ...` up to and *including*
`high` (§4.1: "inclusive boundary", the final value clamped to `high` when
the next grid point would overshoot by less than one step).  In exact
rational arithmetic the overshoot of the first grid point past `high` is
always smaller than `step`, so `high` is appended whenever it is not already
on the grid. -/
def linearValues (low high step : ℚ) : List ℚ :=
  let M : ℕ := (⌊(high - low) / step⌋).toNat
  let base := (List.range (M + 1)).map (fun i : ℕ => low + (i : ℚ) * step)
  if low + (M : ℚ) * step < high then base ++ [high] else base

/-- Modelled from the spec: the exponent grid of a `RangeParameter` with
`log_base = b` — integer exponents "from `floor(log_base(low))` to
`ceil(log_base(high))` stepping by `step`" (§4.1).  Since the spec requires
*integer* exponents, the rational `step` is used as the integer stride
`⌈step⌉` (the notebook always uses `step=1`). -/
def logExponents (low high : ℚ) (b : ℕ) (step : ℚ) : List ℤ :=
  let e0 : ℤ := Int.log b low
  let e1 : ℤ := Int.clog b high
  let s : ℤ := ⌈step⌉
  let N : ℕ := ((e1 - e0) / s).toNat + 1
  (List.range N).map (fun i : ℕ => e0 + (i : ℤ) * s)

/-- Modelled from the spec: `RangeParameter.generate_values()` (§4.1).
Fails with `InvalidRangeError` when `low > high` or `step <= 0`.  With
`log_base = b`: computes `b ** k` for each exponent of the grid and filters
the results to `[low, high]`.  Without `log_base`: linear stepping from
`low` to `high` inclusive. -/
def RangeParameter.generate_values (r : RangeParameter) : Except SearchError (List ℚ) :=
  if r.high < r.low ∨ r.step ≤ 0 then .error .invalidRange
  else match r.log_base with
    | some b => .ok (((logExponents r.low r.high b r.step).map (fun k => (b : ℚ) ^ k)).filter
        (fun v => decide (r.low ≤ v) && decide (v ≤ r.high)))
    | none => .ok (linearValues r.low r.high r.step)

/-- Modelled from the spec: the `ParameterSpec` variant (§3) — either an
explicit discrete list of values (`ListParameter{name, values}`) or a numeric
range (`RangeParameter`). -/
inductive ParameterSpec where
  | listParam (name : String) (values : List ℚ)
  | rangeParam (r : RangeParameter)
  deriving DecidableEq, Repr

/-- Modelled from the spec: the name of a `ParameterSpec`. -/
def ParameterSpec.name : ParameterSpec → String
  | .listParam nm _ => nm
  | .rangeParam r => r.name

/-- Modelled from the spec: `generate_values()` for a `ParameterSpec` (§4.1)
— a pure function returning the ordered value sequence: the explicit list
for a `ListParameter`, the generated grid for a `RangeParameter`. -/
def ParameterSpec.generate_values : ParameterSpec → Except SearchError (List ℚ)
  | .listParam _ vs => .ok vs
  | .rangeParam r => r.generate_values

/-- Modelled from the spec: a `Configuration` — "mapping from parameter name
to a concrete scalar value, one per ParameterSpec in the active set" (§3),
kept in spec order. -/
abbrev Configuration := List (String × ℚ)

/-- Modelled from the spec: the per-spec generated value sequences, paired
with the spec names, computed once at plan-construction time; any
`InvalidRangeError` surfaces here synchronously (§7). -/
def specValueLists : List ParameterSpec → Except SearchError (List (String × List ℚ))
  | [] => .ok []
  | s :: rest =>
    match s.generate_values with
    | .error e => .error e
    | .ok vs =>
      match specValueLists rest with
      | .error e => .error e
      | .ok tail => .ok ((s.name, vs) :: tail)

/-- Modelled from the spec: the lexicographically nested Cartesian product of
the per-spec value sequences — "outer loop = first spec, inner loop = last
spec" (§4.2). -/
def cartesianProduct : List (String × List ℚ) → List Configuration
  | [] => [[]]
  | (nm, vs) :: rest => vs.flatMap (fun v => (cartesianProduct rest).map (fun c => (nm, v) :: c))

/-- Modelled from the spec: `build(specs, mode=exhaustive)` (§4.2) — the full
Cartesian product of each spec's generated value set, in deterministic
lexicographic order. -/
def buildExhaustive (specs : List ParameterSpec) : Except SearchError (List Configuration) :=
  (specValueLists specs).map cartesianProduct

/-- Modelled from the spec: a `RunResult` (§3) — one record per evaluated
Configuration holding the Configuration and the score produced by the
Evaluator; a failed evaluation is recorded as the tagged sentinel `none`
("a tagged `EvaluationFailed` result", §4.3). -/
structure RunResult where
  config : Configuration
  score : Option ℚ
  deriving DecidableEq, Repr

/-- Modelled from the spec: the Evaluator's per-configuration behaviour
(§4.3) — the black-box train-and-score operation is abstracted as a function
`f : Configuration → Option ℚ`; when `fit`/`score` fails for a
configuration, the Evaluator reports the sentinel (`none`) instead of
aborting the search. -/
def evaluate (f : Configuration → Option ℚ) (c : Configuration) : RunResult :=
  ⟨c, f c⟩

/-- Modelled from the spec: best-score selection over the plan-ordered run
results (§4.4) — "select the Configuration with the strictly highest score;
tie-break by earliest plan order"; `none` when every result carries the
failure sentinel.  Returns the plan index together with the winning score. -/
def selectBest : List RunResult → Option (ℕ × ℚ)
  | [] => none
  | r :: rest =>
    match selectBest rest with
    | none => r.score.map (fun q => (0, q))
    | some (j, q') =>
      match r.score with
      | none => some (j + 1, q')
      | some q => if q < q' then some (j + 1, q') else some (0, q)

/-- Modelled from the spec: the `SearchSummary` (§3) — the ordered sequence
of RunResults (insertion order = plan order) with a pointer to the
index/score holding the best result. -/
structure SearchSummary where
  results : List RunResult
  bestIdx : ℕ
  bestScore : ℚ
  deriving DecidableEq, Repr

/-- Modelled from the spec: `SearchRunner.run(plan)` (§4.4) — evaluate every
Configuration of the plan in order, accumulate RunResults in that order, and
select the best; fails with `SearchExhaustedError` when every Configuration
failed (§7). -/
def run (f : Configuration → Option ℚ) (plan : List Configuration) :
    Except SearchError SearchSummary :=
  let rs := plan.map (evaluate f)
  match selectBest rs with
  | none => .error .searchExhausted
  | some (i, q) => .ok ⟨rs, i, q⟩

/-- Modelled from the spec: the caller-supplied random source (§4.2, §9) —
a pure linear-congruential generator state transformer standing in for the
seeded RNG; no wall-clock input exists. -/
def lcgNext (s : ℕ) : ℕ :=
  (1103515245 * s + 12345) % 2147483648

/-- Modelled from the spec: one uniform draw from a generated value sequence
(§4.2: "each parameter value chosen independently and uniformly from that
parameter's generated-value sequence"), as an index derived from the RNG
state. -/
def drawValue (vs : List ℚ) (s : ℕ) : ℚ :=
  vs.getD (s % vs.length) 0

/-- Modelled from the spec: draw one Configuration — one value per spec per
draw (§3), threading the RNG state through the specs. -/
def sampleConfig : List (String × List ℚ) → ℕ → Configuration × ℕ
  | [], s => ([], s)
  | (nm, vs) :: rest, s =>
    let v := drawValue vs s
    let (c, s') := sampleConfig rest (lcgNext s)
    ((nm, v) :: c, s')

/-- Modelled from the spec: draw `n` independent Configurations (§4.2),
threading the RNG state from draw to draw; no deduplication is performed. -/
def sampleConfigs (pairs : List (String × List ℚ)) : ℕ → ℕ → List Configuration × ℕ
  | 0, s => ([], s)
  | n + 1, s =>
    let (c, s') := sampleConfig pairs s
    let (cs, s'') := sampleConfigs pairs n s'
    (c :: cs, s'')

/-- Modelled from the spec: `build(specs, mode=sampled, n)` (§4.2) — requires
`n` (a positive integer count; fails with `InvalidArgumentError` otherwise)
and draws `n` Configurations using the caller-supplied seed. -/
def buildSampled (specs : List ParameterSpec) (n : Option ℤ) (seed : ℕ) :
    Except SearchError (List Configuration) :=
  match n with
  | none => .error .invalidArgument
  | some k =>
    if k ≤ 0 then .error .invalidArgument
    else (specValueLists specs).map (fun pairs => (sampleConfigs pairs k.toNat seed).1)

/-- Modelled from the spec: the ambient environment visible to the sampled-
plan builder — the caller-supplied seed and the wall-clock time.  The spec
(§4.2) forbids implicit reseeding from wall-clock time. -/
structure AmbientEnv where
  seed : ℕ
  wallClock : ℕ

/-- Modelled from the spec: the sampled-plan builder as invoked in an
ambient environment; per §4.2 it consults only the caller-supplied seed. -/
def buildSampledEnv (specs : List ParameterSpec) (n : Option ℤ) (env : AmbientEnv) :
    Except SearchError (List Configuration) :=
  buildSampled specs n env.seed

/-- Modelled from the spec: `RandomSearch.fit`'s sampling as used by the
notebook — no explicit seed parameter of its own; it consumes the ambient
global RNG state (the notebook calls `np.random.seed(1701)` *before*
`searcher.fit`), returning the drawn Configurations together with the
advanced global state. -/
def randomSearchFit (specs : List ParameterSpec) (n : ℕ) (g : ℕ) :
    Except SearchError (List Configuration) × ℕ :=
  match specValueLists specs with
  | .error e => (.error e, g)
  | .ok pairs =>
    let (cs, g') := sampleConfigs pairs n g
    (.ok cs, g')

/-- Modelled from the spec: the observable state of the bounded worker pool
(§5) — counts of queued, in-flight and completed evaluations. -/
structure PoolState where
  pending : ℕ
  running : ℕ
  completed : ℕ
  deriving DecidableEq, Repr

/-- Modelled from the spec: the transitions of the bounded worker pool (§5):
a queued Configuration is dispatched only while fewer than `cap` evaluations
are in flight ("the runner must not spawn more concurrent evaluations than
the configured pool size"), and an in-flight evaluation may complete at any
time. -/
inductive PoolStep (cap : ℕ) : PoolState → PoolState → Prop
  | dispatch (s : PoolState) (h1 : 0 < s.pending) (h2 : s.running < cap) :
      PoolStep cap s ⟨s.pending - 1, s.running + 1, s.completed⟩
  | finish (s : PoolState) (h : 0 < s.running) :
      PoolStep cap s ⟨s.pending, s.running - 1, s.completed + 1⟩

/-- Modelled from the spec: the states the pool can reach from a given state
by any number of dispatch/finish transitions. -/
def poolReaches (cap : ℕ) : PoolState → PoolState → Prop :=
  Relation.ReflTransGen (PoolStep cap)

/-- The only error a `ParameterSpec` can produce at value-generation time is
`InvalidRangeError`. -/
theorem ParameterSpec.generate_values_error (s : ParameterSpec) (e : SearchError)
    (h : s.generate_values = .error e) : e = .invalidRange := by
  cases s with
  | listParam nm vs => simp [ParameterSpec.generate_values] at h
  | rangeParam r =>
    have h' : r.generate_values = .error e := h
    unfold RangeParameter.generate_values at h'
    by_cases hc : r.high < r.low ∨ r.step ≤ 0
    · rw [if_pos hc] at h'
      exact (Except.error.inj h').symm
    · rw [if_neg hc] at h'
      rcases hl : r.log_base with _ | b <;> rw [hl] at h' <;> cases h'

/-- A malformed range among the specs makes plan construction fail
synchronously with `InvalidRangeError`. -/
theorem specValueLists_error_of_bad_range (r : RangeParameter) (specs : List ParameterSpec)
    (hmem : ParameterSpec.rangeParam r ∈ specs) (hbad : r.high < r.low ∨ r.step ≤ 0) :
    specValueLists specs = .error .invalidRange := by
  induction specs with
  | nil => cases hmem
  | cons x xs ih =>
    have hx : (ParameterSpec.rangeParam r).generate_values = .error .invalidRange := by
      show r.generate_values = .error .invalidRange
      unfold RangeParameter.generate_values
      rw [if_pos hbad]
    rcases List.mem_cons.mp hmem with hEq | hTail
    · subst hEq
      simp [specValueLists, hx]
    · rcases hxval : x.generate_values with e | vs
      · have he : e = .invalidRange := ParameterSpec.generate_values_error x e hxval
        subst he
        simp [specValueLists, hxval]
      · have ihe := ih hTail
        simp [specValueLists, hxval, ihe]

/-- C8: for every RangeParameter with low > high or with step <= 0,
value generation fails synchronously with InvalidRangeError (and only then:
a well-formed range never produces this error), and plan construction over
specs containing the malformed range fails with InvalidRangeError at
plan-construction time rather than silently correcting the spec. -/
theorem invalid_range_error_spec (r : RangeParameter) :
    (r.generate_values = .error .invalidRange ↔ (r.high < r.low ∨ r.step ≤ 0)) ∧
    (∀ specs : List ParameterSpec, ParameterSpec.rangeParam r ∈ specs →
      (r.high < r.low ∨ r.step ≤ 0) → buildExhaustive specs = .error .invalidRange) := by
  constructor
  · constructor
    · intro h
      by_contra hc
      unfold RangeParameter.generate_values at h
      rw [if_neg hc] at h
      rcases hl : r.log_base with _ | b <;> rw [hl] at h <;> cases h
    · intro hbad
      unfold RangeParameter.generate_values
      rw [if_pos hbad]
  · intro specs hmem hbad
    unfold buildExhaustive
    rw [specValueLists_error_of_bad_range r specs hmem hbad]
    rfl

/-- Closed instance for `invalid_range_error_spec`: the malformed range
`low = 1 > 0 = high` makes exhaustive plan construction fail with
InvalidRangeError. -/
theorem invalid_range_error_spec_witness :
    buildExhaustive [ParameterSpec.rangeParam ⟨"x", 1, 0, 1, none⟩] =
      .error .invalidRange :=
  (invalid_range_error_spec ⟨"x", 1, 0, 1, none⟩).2
    [ParameterSpec.rangeParam ⟨"x", 1, 0, 1, none⟩]
    (List.mem_singleton.mpr rfl) (Or.inl (by norm_num))

/-- C9: in parallel mode the runner never has more evaluations in flight
than the configured worker-pool size: every pool state reachable from an
initial state with `total` queued configurations and none running keeps
`running ≤ cap`, however many configurations are queued. -/
theorem pool_bounded_in_flight (cap total : ℕ) (s : PoolState)
    (h : poolReaches cap ⟨total, 0, 0⟩ s) : s.running ≤ cap := by
  induction h with
  | refl => exact Nat.zero_le cap
  | tail _ step ih =>
    cases step with
    | dispatch h1 h2 => exact h2
    | finish ht => exact le_trans (Nat.sub_le _ _) ih

/-- Closed instance for `pool_bounded_in_flight`: with `n_threads = 4` and
20 queued configurations, after dispatching one evaluation the number in
flight is within the bound. -/
theorem pool_bounded_in_flight_witness : (⟨19, 1, 0⟩ : PoolState).running ≤ 4 :=
  pool_bounded_in_flight 4 20 ⟨19, 1, 0⟩
    (Relation.ReflTransGen.single
      (PoolStep.dispatch ⟨20, 0, 0⟩ (by decide) (by decide)))

/-- C6: sampled-plan generation is deterministic in the supplied random
source: two runs with the same specs, the same n and the same caller-
supplied seed produce the identical sequence of Configurations, whatever
the ambient wall-clock time is — the builder never implicitly reseeds from
wall-clock time. -/
theorem sampled_plan_seed_determinism (specs : List ParameterSpec) (n : Option ℤ)
    (env₁ env₂ : AmbientEnv) (h : env₁.seed = env₂.seed) :
    buildSampledEnv specs n env₁ = buildSampledEnv specs n env₂ := by
  unfold buildSampledEnv
  rw [h]

/-- Closed instance for `sampled_plan_seed_determinism`: with seed 1701 the
sampled plan is identical at wall-clock times 0 and 999. -/
theorem sampled_plan_seed_determinism_witness :
    buildSampledEnv [ParameterSpec.listParam "p" [1, 2]] (some 5) ⟨1701, 0⟩ =
      buildSampledEnv [ParameterSpec.listParam "p" [1, 2]] (some 5) ⟨1701, 999⟩ :=
  sampled_plan_seed_determinism [ParameterSpec.listParam "p" [1, 2]] (some 5)
    ⟨1701, 0⟩ ⟨1701, 999⟩ rfl

/-- The Cartesian product has as many configurations as the product of the
per-spec cardinalities. -/
theorem cartesianProduct_length (pairs : List (String × List ℚ)) :
    (cartesianProduct pairs).length = (pairs.map (fun p => p.2.length)).prod := by
  induction pairs with
  | nil => rfl
  | cons p rest ih =>
    rcases p with ⟨nm, vs⟩
    simp only [cartesianProduct, List.length_flatMap, List.map_map, Function.comp_def,
      List.length_map, List.map_cons, List.prod_cons]
    rw [List.map_const', List.sum_replicate, smul_eq_mul, ih]

/-- C2: building a plan in exhaustive mode yields exactly the lexicographic
Cartesian product of the specs' generated value sequences (first spec =
outer loop), with cardinality the product of the per-spec cardinalities;
in particular decay=[1.0,0.95,0.9] and epochs=[20,50,100] yield the nine
configurations (1.0,20),(1.0,50),...,(0.9,100) in that order. -/
theorem exhaustive_plan_cartesian :
    (∀ (specs : List ParameterSpec) (pairs : List (String × List ℚ)),
        specValueLists specs = .ok pairs →
        buildExhaustive specs = .ok (cartesianProduct pairs) ∧
        (cartesianProduct pairs).length = (pairs.map (fun p => p.2.length)).prod) ∧
    buildExhaustive
        [ParameterSpec.listParam "decay" [1.0, 0.95, 0.9],
         ParameterSpec.listParam "epochs" [20, 50, 100]] =
      .ok [[("decay", 1.0), ("epochs", 20)], [("decay", 1.0), ("epochs", 50)],
           [("decay", 1.0), ("epochs", 100)], [("decay", 0.95), ("epochs", 20)],
           [("decay", 0.95), ("epochs", 50)], [("decay", 0.95), ("epochs", 100)],
           [("decay", 0.9), ("epochs", 20)], [("decay", 0.9), ("epochs", 50)],
           [("decay", 0.9), ("epochs", 100)]] := by
  constructor
  · intro specs pairs h
    refine ⟨?_, cartesianProduct_length pairs⟩
    unfold buildExhaustive
    rw [h]
    rfl
  · rfl

/-- Closed instance for `exhaustive_plan_cartesian`: specs of sizes 3 and 4
yield the Cartesian-product plan with 3 * 4 = 12 configurations. -/
theorem exhaustive_plan_cartesian_witness :
    buildExhaustive
        [ParameterSpec.listParam "a" [1, 2, 3], ParameterSpec.listParam "b" [4, 5, 6, 7]] =
      .ok (cartesianProduct [("a", [1, 2, 3]), ("b", [4, 5, 6, 7])]) ∧
    (cartesianProduct [("a", [1, 2, 3]), ("b", [4, 5, 6, 7])]).length =
      ([("a", [1, 2, 3]), ("b", [4, 5, 6, 7])].map (fun p => p.2.length)).prod :=
  exhaustive_plan_cartesian.1
    [ParameterSpec.listParam "a" [1, 2, 3], ParameterSpec.listParam "b" [4, 5, 6, 7]]
    [("a", [1, 2, 3]), ("b", [4, 5, 6, 7])] rfl

/-- A sampled draw of `n` configurations has length exactly `n`. -/
theorem sampleConfigs_length (pairs : List (String × List ℚ)) (n s : ℕ) :
    (sampleConfigs pairs n s).1.length = n := by
  induction n generalizing s with
  | zero => rfl
  | succ n ih => simp [sampleConfigs, ih]

/-- C5: building a plan in sampled mode with a positive integer n produces
exactly n Configurations, duplicates permitted and not deduplicated (a
single-valued spec yields the same Configuration three times); if n is
absent or not positive, plan construction fails synchronously with
InvalidArgumentError. -/
theorem sampled_plan_count (specs : List ParameterSpec) (seed : ℕ) :
    (buildSampled specs none seed = .error .invalidArgument) ∧
    (∀ k : ℤ, k ≤ 0 → buildSampled specs (some k) seed = .error .invalidArgument) ∧
    (∀ k : ℤ, 0 < k → ∀ pairs, specValueLists specs = .ok pairs →
      buildSampled specs (some k) seed = .ok (sampleConfigs pairs k.toNat seed).1 ∧
      (sampleConfigs pairs k.toNat seed).1.length = k.toNat) ∧
    buildSampled [ParameterSpec.listParam "p" [7]] (some 3) seed =
      .ok [[("p", 7)], [("p", 7)], [("p", 7)]] := by
  refine ⟨rfl, ?_, ?_, ?_⟩
  · intro k hk
    show (if k ≤ 0 then Except.error SearchError.invalidArgument
      else Except.map (fun pairs => (sampleConfigs pairs k.toNat seed).1)
        (specValueLists specs)) = Except.error SearchError.invalidArgument
    rw [if_pos hk]
  · intro k hk pairs hpairs
    refine ⟨?_, sampleConfigs_length pairs k.toNat seed⟩
    show (if k ≤ 0 then Except.error SearchError.invalidArgument
      else Except.map (fun pairs => (sampleConfigs pairs k.toNat seed).1)
        (specValueLists specs)) = Except.ok (sampleConfigs pairs k.toNat seed).1
    rw [if_neg (not_le.mpr hk), hpairs]
    rfl
  · show (if (3 : ℤ) ≤ 0 then Except.error SearchError.invalidArgument
      else Except.map (fun pairs => (sampleConfigs pairs (3 : ℤ).toNat seed).1)
        (specValueLists [ParameterSpec.listParam "p" [7]])) =
      Except.ok [[("p", 7)], [("p", 7)], [("p", 7)]]
    rw [if_neg (by norm_num)]
    simp [specValueLists, ParameterSpec.generate_values, ParameterSpec.name, Except.map,
      sampleConfigs, sampleConfig, drawValue, Nat.mod_one]

/-- Closed instance for `sampled_plan_count`: a sampled plan with n=5 over a
two-valued spec has exactly 5 configurations. -/
theorem sampled_plan_count_witness :
    buildSampled [ParameterSpec.listParam "p" [1, 2]] (some 5) 1701 =
      .ok (sampleConfigs [("p", [1, 2])] (5 : ℤ).toNat 1701).1 ∧
    (sampleConfigs [("p", [1, 2])] (5 : ℤ).toNat 1701).1.length = (5 : ℤ).toNat :=
  (sampled_plan_count [ParameterSpec.listParam "p" [1, 2]] 1701).2.2.1 5 (by norm_num)
    [("p", [1, 2])] rfl

/-- Best-selection returns the failure marker exactly when every run result
carries the failed-score sentinel. -/
theorem selectBest_eq_none_iff (rs : List RunResult) :
    selectBest rs = none ↔ ∀ r ∈ rs, r.score = none := by
  induction rs with
  | nil => simp [selectBest]
  | cons r rest ih =>
    rcases hrest : selectBest rest with _ | p
    · rcases hr : r.score with _ | q
      · constructor
        · intro _ x hx
          rcases List.mem_cons.mp hx with hEq | hTail
          · rw [hEq]; exact hr
          · exact ih.mp hrest x hTail
        · intro _
          simp [selectBest, hrest, hr]
      · simp [selectBest, hrest, hr]
    · rcases p with ⟨j, q'⟩
      have hne : ¬ ∀ x ∈ rest, x.score = none := by
        intro hall
        rw [ih.mpr hall] at hrest
        cases hrest
      rcases hr : r.score with _ | q
      · simp only [selectBest, hrest, hr]
        constructor
        · intro h
          cases h
        · intro hall
          exact absurd (fun x hx => hall x (List.mem_cons_of_mem r hx)) hne
      · simp only [selectBest, hrest, hr]
        constructor
        · intro h
          split at h <;> cases h
        · intro hall
          exact absurd (fun x hx => hall x (List.mem_cons_of_mem r hx)) hne

/-- Unfolding equation for `run`. -/
theorem run_unfold (f : Configuration → Option ℚ) (plan : List Configuration) :
    run f plan =
      match selectBest (plan.map (evaluate f)) with
      | none => .error .searchExhausted
      | some (i, q) => .ok ⟨plan.map (evaluate f), i, q⟩ := rfl

/-- C4: if fit or score fails for one Configuration, the Evaluator records
the sentinel failed-score and the search continues over the remaining
Configurations (the summary holds one RunResult per planned Configuration,
in plan order); run fails with SearchExhaustedError if and only if no
Configuration in the plan produced a usable score. -/
theorem run_search_exhausted_iff (f : Configuration → Option ℚ) (plan : List Configuration) :
    (run f plan = .error .searchExhausted ↔ ∀ c ∈ plan, f c = none) ∧
    (∀ s, run f plan = .ok s → s.results = plan.map (evaluate f)) := by
  have key : (∀ r ∈ plan.map (evaluate f), r.score = none) ↔ ∀ c ∈ plan, f c = none := by
    simp [evaluate]
  constructor
  · rcases hsel : selectBest (plan.map (evaluate f)) with _ | p
    · have hrun : run f plan = .error .searchExhausted := by
        rw [run_unfold, hsel]
      rw [hrun]
      simp only [true_iff]
      exact key.mp ((selectBest_eq_none_iff _).mp hsel)
    · rcases p with ⟨i, q⟩
      have hrun : run f plan = .ok ⟨plan.map (evaluate f), i, q⟩ := by
        rw [run_unfold, hsel]
      rw [hrun]
      constructor
      · intro h
        cases h
      · intro hall
        have hnone : selectBest (plan.map (evaluate f)) = none :=
          (selectBest_eq_none_iff _).mpr (key.mpr hall)
        rw [hnone] at hsel
        cases hsel
  · intro s hs
    rw [run_unfold] at hs
    rcases hsel : selectBest (plan.map (evaluate f)) with _ | p <;> rw [hsel] at hs
    · cases hs
    · rcases p with ⟨i, q⟩
      cases hs
      rfl

/-- Closed instance for `run_search_exhausted_iff`: when every Evaluator
call fails, the runner signals SearchExhaustedError. -/
theorem run_search_exhausted_iff_witness :
    run (fun _ => none) [[("a", 1)], [("a", 2)]] = .error .searchExhausted :=
  (run_search_exhausted_iff (fun _ => none) [[("a", 1)], [("a", 2)]]).1.mpr
    (fun _ _ => rfl)

/-- C10: the modelled RandomSearch sampling (as used by the notebook, which
seeds the *global* numpy RNG via np.random.seed before calling fit) draws
from the ambient global RNG state: fits from equal ambient states yield the
identical configuration sequence, the sequence genuinely depends on that
state, and two successive fits without re-seeding see different states and
hence (in general) different sequences. -/
instance : DecidableEq (Except SearchError (List Configuration)) := fun a b =>
  match a, b with
  | .error e₁, .error e₂ =>
    if h : e₁ = e₂ then isTrue (by rw [h]) else isFalse (fun hc => h (Except.error.inj hc))
  | .error _, .ok _ => isFalse (fun hc => Except.noConfusion hc)
  | .ok _, .error _ => isFalse (fun hc => Except.noConfusion hc)
  | .ok l₁, .ok l₂ =>
    if h : l₁ = l₂ then isTrue (by rw [h]) else isFalse (fun hc => h (Except.ok.inj hc))

theorem random_search_fit_global_rng :
    (∀ (specs : List ParameterSpec) (n : ℕ) (g₁ g₂ : ℕ), g₁ = g₂ →
      (randomSearchFit specs n g₁).1 = (randomSearchFit specs n g₂).1) ∧
    (randomSearchFit [ParameterSpec.listParam "p" [1, 2, 3]] 1 0).1 ≠
      (randomSearchFit [ParameterSpec.listParam "p" [1, 2, 3]] 1 1).1 ∧
    (randomSearchFit [ParameterSpec.listParam "p" [1, 2, 3]] 2 0).1 ≠
      (randomSearchFit [ParameterSpec.listParam "p" [1, 2, 3]] 2
        (randomSearchFit [ParameterSpec.listParam "p" [1, 2, 3]] 2 0).2).1 := by
  refine ⟨fun specs n g₁ g₂ h => by rw [h], ?_, ?_⟩ <;> decide

/-- Closed instance for `random_search_fit_global_rng`: two fits from the
same ambient global state 1701 agree. -/
theorem random_search_fit_global_rng_witness :
    (randomSearchFit [ParameterSpec.listParam "p" [1, 2, 3]] 5 1701).1 =
      (randomSearchFit [ParameterSpec.listParam "p" [1, 2, 3]] 5 1701).1 :=
  random_search_fit_global_rng.1 [ParameterSpec.listParam "p" [1, 2, 3]] 5 1701 1701 rfl

/-- A fixed default result used for safe indexing into result lists. -/
def dummyResult : RunResult := ⟨[], none⟩

/-- The index/score returned by best-selection carries the strictly highest
usable score, with ties broken towards the earliest plan index. -/
theorem selectBest_spec (rs : List RunResult) (i : ℕ) (q : ℚ)
    (h : selectBest rs = some (i, q)) :
    i < rs.length ∧ (rs.getD i dummyResult).score = some q ∧
    (∀ j, j < rs.length → ∀ qj, (rs.getD j dummyResult).score = some qj → qj ≤ q) ∧
    (∀ j, j < i → ∀ qj, (rs.getD j dummyResult).score = some qj → qj < q) := by
  induction rs generalizing i q with
  | nil => cases h
  | cons r rest ih =>
    rw [selectBest] at h
    rcases hrest : selectBest rest with _ | p
    · rw [hrest] at h
      rcases hr : r.score with _ | q0 <;> rw [hr] at h
      · cases h
      · simp only [Option.map_some'] at h
        rw [Option.some.injEq, Prod.mk.injEq] at h
        obtain ⟨hi, hq⟩ := h
        subst hi
        subst hq
        have hall := (selectBest_eq_none_iff rest).mp hrest
        refine ⟨Nat.succ_pos _, hr, ?_, ?_⟩
        · intro j hj qj hqj
          cases j with
          | zero =>
            rw [List.getD_cons_zero, hr] at hqj
            exact le_of_eq (Option.some.inj hqj).symm
          | succ j =>
            rw [List.getD_cons_succ] at hqj
            have hjlen : j < rest.length := Nat.lt_of_succ_lt_succ hj
            have hgd : rest.getD j dummyResult = rest.get ⟨j, hjlen⟩ := by
              rw [List.getD_eq_get?, List.get?_eq_get hjlen]
              rfl
            rw [hgd, hall _ (List.get_mem rest j hjlen)] at hqj
            cases hqj
        · intro j hj
          exact absurd hj (Nat.not_lt_zero j)
    · rcases p with ⟨j', q'⟩
      rw [hrest] at h
      obtain ⟨hlt, hscore, hmax, hstrict⟩ := ih j' q' hrest
      rcases hr : r.score with _ | q0 <;> rw [hr] at h <;> dsimp only at h
      · rw [Option.some.injEq, Prod.mk.injEq] at h
        obtain ⟨hi, hq⟩ := h
        subst hi
        subst hq
        refine ⟨Nat.succ_lt_succ hlt, by rw [List.getD_cons_succ]; exact hscore, ?_, ?_⟩
        · intro j hj qj hqj
          cases j with
          | zero =>
            rw [List.getD_cons_zero, hr] at hqj
            cases hqj
          | succ j =>
            rw [List.getD_cons_succ] at hqj
            exact hmax j (Nat.lt_of_succ_lt_succ hj) qj hqj
        · intro j hj qj hqj
          cases j with
          | zero =>
            rw [List.getD_cons_zero, hr] at hqj
            cases hqj
          | succ j =>
            rw [List.getD_cons_succ] at hqj
            exact hstrict j (Nat.lt_of_succ_lt_succ hj) qj hqj
      · by_cases hcmp : q0 < q'
        · rw [if_pos hcmp, Option.some.injEq, Prod.mk.injEq] at h
          obtain ⟨hi, hq⟩ := h
          subst hi
          subst hq
          refine ⟨Nat.succ_lt_succ hlt, by rw [List.getD_cons_succ]; exact hscore, ?_, ?_⟩
          · intro j hj qj hqj
            cases j with
            | zero =>
              rw [List.getD_cons_zero, hr] at hqj
              obtain rfl : q0 = qj := Option.some.inj hqj
              exact le_of_lt hcmp
            | succ j =>
              rw [List.getD_cons_succ] at hqj
              exact hmax j (Nat.lt_of_succ_lt_succ hj) qj hqj
          · intro j hj qj hqj
            cases j with
            | zero =>
              rw [List.getD_cons_zero, hr] at hqj
              obtain rfl : q0 = qj := Option.some.inj hqj
              exact hcmp
            | succ j =>
              rw [List.getD_cons_succ] at hqj
              exact hstrict j (Nat.lt_of_succ_lt_succ hj) qj hqj
        · rw [if_neg hcmp, Option.some.injEq, Prod.mk.injEq] at h
          obtain ⟨hi, hq⟩ := h
          subst hi
          subst hq
          have hle : q' ≤ q0 := not_lt.mp hcmp
          refine ⟨Nat.succ_pos _, by rw [List.getD_cons_zero]; exact hr, ?_, ?_⟩
          · intro j hj qj hqj
            cases j with
            | zero =>
              rw [List.getD_cons_zero, hr] at hqj
              exact le_of_eq (Option.some.inj hqj).symm
            | succ j =>
              rw [List.getD_cons_succ] at hqj
              exact le_trans (hmax j (Nat.lt_of_succ_lt_succ hj) qj hqj) hle
          · intro j hj
            exact absurd hj (Nat.not_lt_zero j)

/-- C3: for every finished search with at least one usable score, the runner
returns a summary, and the selected configuration's score is the strictly
highest: every recorded usable score is at most the best score, and every
result strictly earlier in plan order than the selected one scores strictly
below it (ties are therefore resolved to the earliest plan index). -/
theorem best_selection_spec :
    (∀ (f : Configuration → Option ℚ) (plan : List Configuration),
      (∃ c ∈ plan, f c ≠ none) → ∃ s, run f plan = .ok s) ∧
    (∀ (f : Configuration → Option ℚ) (plan : List Configuration) (s : SearchSummary),
      run f plan = .ok s →
      s.results = plan.map (evaluate f) ∧
      s.bestIdx < s.results.length ∧
      (s.results.getD s.bestIdx dummyResult).score = some s.bestScore ∧
      (∀ j, j < s.results.length → ∀ qj,
        (s.results.getD j dummyResult).score = some qj → qj ≤ s.bestScore) ∧
      (∀ j, j < s.bestIdx → ∀ qj,
        (s.results.getD j dummyResult).score = some qj → qj < s.bestScore)) := by
  constructor
  · rintro f plan ⟨c, hc, hfc⟩
    rcases hsel : selectBest (plan.map (evaluate f)) with _ | p
    · exact absurd ((selectBest_eq_none_iff _).mp hsel (evaluate f c)
        (List.mem_map_of_mem (evaluate f) hc)) hfc
    · rcases p with ⟨i, q⟩
      exact ⟨⟨plan.map (evaluate f), i, q⟩, by rw [run_unfold, hsel]⟩
  · intro f plan s hs
    rw [run_unfold] at hs
    rcases hsel : selectBest (plan.map (evaluate f)) with _ | p <;> rw [hsel] at hs
    · cases hs
    · rcases p with ⟨i, q⟩
      cases hs
      obtain ⟨h1, h2, h3, h4⟩ := selectBest_spec _ i q hsel
      exact ⟨rfl, h1, h2, h3, h4⟩

/-- Closed instance for `best_selection_spec`: a two-configuration plan where
every evaluation scores 5 has a summary (and, by the theorem, the selected
index is the earliest of the tied results). -/
theorem best_selection_spec_witness :
    ∃ s, run (fun _ => some 5) [[("a", 1)], [("a", 2)]] = .ok s :=
  best_selection_spec.1 (fun _ => some 5) [[("a", 1)], [("a", 2)]]
    ⟨[("a", 1)], List.mem_cons_self _ _, fun hc => Option.noConfusion hc⟩

/-- Indexing into a mapped range list. -/
theorem rangeMap_getD (n : ℕ) (g : ℕ → ℚ) (i : ℕ) (h : i < n) :
    ((List.range n).map g).getD i 0 = g i := by
  rw [List.getD_eq_get?, List.get?_map, List.get?_range h]
  rfl

/-- Head of a mapped range list. -/
theorem rangeMap_head (n : ℕ) (g : ℕ → ℚ) :
    ((List.range (n + 1)).map g).head? = some (g 0) := by
  rw [← List.get?_zero, List.get?_map, List.get?_range (Nat.succ_pos n)]
  rfl

/-- Last element of a mapped range list. -/
theorem rangeMap_getLast (n : ℕ) (g : ℕ → ℚ) :
    ((List.range (n + 1)).map g).getLast? = some (g n) := by
  rw [List.getLast?_eq_get?, List.length_map, List.length_range]
  simp only [Nat.add_sub_cancel]
  rw [List.get?_map, List.get?_range (Nat.lt_succ_self n)]
  rfl

/-- The linear grid starts at `low`, ends at `high`, stays within bounds,
is strictly increasing, follows the arithmetic progression `low + i*step`
except possibly at the final clamped element, and has consecutive gaps
exactly `step` except possibly the last. -/
theorem linearValues_spec (low high step : ℚ) (h1 : low ≤ high) (h2 : 0 < step) :
    (linearValues low high step).head? = some low ∧
    (linearValues low high step).getLast? = some high ∧
    (∀ v ∈ linearValues low high step, low ≤ v ∧ v ≤ high) ∧
    (linearValues low high step).Chain' (· < ·) ∧
    (∀ i, i + 1 < (linearValues low high step).length →
      (linearValues low high step).getD i 0 = low + i * step) ∧
    (∀ i, i + 2 < (linearValues low high step).length →
      (linearValues low high step).getD (i + 1) 0 - (linearValues low high step).getD i 0 = step) := by
  have hD : (0 : ℚ) ≤ (high - low) / step := div_nonneg (sub_nonneg.mpr h1) h2.le
  set M : ℕ := (⌊(high - low) / step⌋).toNat with hMdef
  set g : ℕ → ℚ := fun i => low + i * step with hgdef
  have hMcast : (M : ℚ) ≤ (high - low) / step := by
    have h0 : ((M : ℤ) : ℚ) = ((⌊(high - low) / step⌋ : ℤ) : ℚ) := by
      rw [hMdef, Int.toNat_of_nonneg (Int.floor_nonneg.mpr hD)]
    rw [show ((M : ℤ) : ℚ) = (M : ℚ) by push_cast; ring] at h0
    rw [h0]
    exact Int.floor_le _
  have hbound : ∀ i : ℕ, i ≤ M → g i ≤ high := by
    intro i hi
    have hic : (i : ℚ) ≤ (high - low) / step := le_trans (by exact_mod_cast hi) hMcast
    have := (le_div_iff h2).mp hic
    simp only [hgdef]
    linarith
  have hmono : ∀ a b : ℕ, a < b → g a < g b := by
    intro a b hab
    simp only [hgdef]
    have : (a : ℚ) < b := by exact_mod_cast hab
    nlinarith
  have hlowmem : ∀ i : ℕ, low ≤ g i := by
    intro i
    simp only [hgdef]
    have : (0 : ℚ) ≤ (i : ℚ) * step := mul_nonneg (Nat.cast_nonneg i) h2.le
    linarith
  have hchainbase : ((List.range (M + 1)).map g).Chain' (· < ·) :=
    ((List.pairwise_lt_range (M + 1)).map g hmono).chain'
  have hmem : ∀ v ∈ (List.range (M + 1)).map g, low ≤ v ∧ v ≤ high := by
    intro v hv
    obtain ⟨i, hi, rfl⟩ := List.mem_map.mp hv
    exact ⟨hlowmem i, hbound i (Nat.lt_succ_iff.mp (List.mem_range.mp hi))⟩
  have hlen : ((List.range (M + 1)).map g).length = M + 1 := by
    rw [List.length_map, List.length_range]
  have hgap : ∀ i : ℕ, g (i + 1) - g i = step := by
    intro i
    simp only [hgdef]
    push_cast
    ring
  unfold linearValues
  dsimp only
  rw [← hMdef, ← hgdef]
  by_cases hc : low + M * step < high
  · rw [if_pos hc]
    refine ⟨?_, ?_, ?_, ?_, ?_, ?_⟩
    · rw [← List.get?_zero, List.get?_append (by rw [hlen]; exact Nat.succ_pos M),
        List.get?_map, List.get?_range (Nat.succ_pos M)]
      simp [hgdef]
    · exact List.getLast?_concat _
    · intro v hv
      rcases List.mem_append.mp hv with hv | hv
      · exact hmem v hv
      · rw [List.mem_singleton.mp hv]
        exact ⟨h1, le_refl high⟩
    · rw [List.chain'_append]
      refine ⟨hchainbase, List.chain'_singleton high, ?_⟩
      intro x hx y hy
      rw [rangeMap_getLast M g] at hx
      rw [Option.mem_def, Option.some.injEq] at hx
      simp only [List.head?_cons, Option.mem_def, Option.some.injEq] at hy
      rw [← hx, ← hy] at *
      exact hc
    · intro i hi
      rw [List.length_append, hlen] at hi
      have hia : i < M + 1 := by
        simp at hi
        omega
      rw [List.getD_append _ _ _ _ (by rw [hlen]; exact hia), rangeMap_getD (M + 1) g i hia]
    · intro i hi
      rw [List.length_append, hlen] at hi
      have hia : i + 1 < M + 1 := by
        simp at hi
        omega
      rw [List.getD_append _ _ _ _ (by rw [hlen]; exact hia),
        List.getD_append _ _ _ _ (by rw [hlen]; omega),
        rangeMap_getD (M + 1) g (i + 1) hia, rangeMap_getD (M + 1) g i (by omega)]
      exact hgap i
  · rw [if_neg hc]
    have heq : g M = high := le_antisymm (hbound M (le_refl M)) (not_lt.mp hc)
    refine ⟨?_, ?_, hmem, hchainbase, ?_, ?_⟩
    · rw [rangeMap_head M g]
      simp [hgdef]
    · rw [rangeMap_getLast M g, heq]
    · intro i hi
      rw [hlen] at hi
      exact rangeMap_getD (M + 1) g i (by omega)
    · intro i hi
      rw [hlen] at hi
      rw [rangeMap_getD (M + 1) g (i + 1) (by omega), rangeMap_getD (M + 1) g i (by omega)]
      exact hgap i


/-- C7: for every RangeParameter without log_base (low <= high, step > 0),
generate_values() returns the sequence low, low+step, low+2*step, ... up to
and including high: every value lies in [low, high], the values are strictly
increasing, the i-th value is exactly low + i*step for every non-final
index, and consecutive values differ by exactly step except possibly the
last, which is clamped to high. -/
theorem linear_range_generate_values_spec (r : RangeParameter) (h1 : r.low ≤ r.high)
    (h2 : 0 < r.step) (h3 : r.log_base = none) :
    ∃ vs, r.generate_values = .ok vs ∧
      vs.head? = some r.low ∧
      vs.getLast? = some r.high ∧
      (∀ v ∈ vs, r.low ≤ v ∧ v ≤ r.high) ∧
      vs.Chain' (· < ·) ∧
      (∀ i : ℕ, i + 1 < vs.length → vs.getD i 0 = r.low + (i : ℚ) * r.step) ∧
      (∀ i : ℕ, i + 2 < vs.length → vs.getD (i + 1) 0 - vs.getD i 0 = r.step) := by
  have hgv : r.generate_values = .ok (linearValues r.low r.high r.step) := by
    unfold RangeParameter.generate_values
    rw [if_neg (fun hc => hc.elim (fun hlt => absurd h1 (not_le.mpr hlt))
      (fun hle => absurd h2 (not_lt.mpr hle))), h3]
  obtain ⟨c1, c2, c3, c4, c5, c6⟩ := linearValues_spec r.low r.high r.step h1 h2
  exact ⟨linearValues r.low r.high r.step, hgv, c1, c2, c3, c4, c5, c6⟩

/-- Closed instance for `linear_range_generate_values_spec`: the range
low=0, high=1, step=1/2 satisfies the hypotheses and hence the generated
sequence starts at 0, ends at 1, is strictly increasing with gaps 1/2. -/
theorem linear_range_generate_values_spec_witness :
    ((0 : ℚ) ≤ 1 ∧ (0 : ℚ) < 1/2) ∧
    ∃ vs, RangeParameter.generate_values ⟨"p", 0, 1, 1/2, none⟩ = .ok vs ∧
      vs.head? = some (0 : ℚ) ∧
      vs.getLast? = some (1 : ℚ) ∧
      (∀ v ∈ vs, (0 : ℚ) ≤ v ∧ v ≤ 1) ∧
      vs.Chain' (· < ·) ∧
      (∀ i : ℕ, i + 1 < vs.length → vs.getD i 0 = 0 + (i : ℚ) * (1/2)) ∧
      (∀ i : ℕ, i + 2 < vs.length → vs.getD (i + 1) 0 - vs.getD i 0 = 1/2) :=
  ⟨⟨by norm_num, by norm_num⟩,
    linear_range_generate_values_spec ⟨"p", 0, 1, 1/2, none⟩ (by norm_num) (by norm_num) rfl⟩

/-- The floor-log of a positive rational is at most its ceiling-log. -/
theorem log_le_clog (b : ℕ) (hb : 1 < b) (r : ℚ) (hr : 0 < r) : Int.log b r ≤ Int.clog b r := by
  have h1 : (b:ℚ) ^ Int.log b r ≤ r := Int.zpow_log_le_self hb hr
  have h2 : r ≤ (b:ℚ) ^ Int.clog b r := Int.self_le_zpow_clog hb r
  have hb' : (1:ℚ) < b := by exact_mod_cast hb
  exact (zpow_le_zpow_iff_right₀ hb').mp (h1.trans h2)

/-- C1: for every RangeParameter with log_base b (well-formed, b > 1,
low > 0), generate_values() produces exactly the values b^k for the integer
exponents k running from floor(log_b(low)) in strides of step, staying
between floor(log_b(low)) and ceil(log_b(high)), filtered so that every
returned value lies in [low, high]; in particular every returned value is an
integer power of b inside [low, high]. -/
theorem log_range_generate_values_spec (r : RangeParameter) (b : ℕ) (h1 : r.low ≤ r.high)
    (h2 : 0 < r.step) (h3 : r.log_base = some b) (hb : 1 < b) (hlow : 0 < r.low) :
    ∃ vs, r.generate_values = .ok vs ∧
      (∀ v, v ∈ vs ↔ ∃ k : ℤ, k ∈ logExponents r.low r.high b r.step ∧
        v = (b : ℚ) ^ k ∧ r.low ≤ v ∧ v ≤ r.high) ∧
      (∀ v ∈ vs, (∃ k : ℤ, v = (b : ℚ) ^ k) ∧ r.low ≤ v ∧ v ≤ r.high) ∧
      (∀ k ∈ logExponents r.low r.high b r.step,
        ∃ i : ℕ, k = Int.log b r.low + (i : ℤ) * ⌈r.step⌉) ∧
      (∀ k ∈ logExponents r.low r.high b r.step,
        Int.log b r.low ≤ k ∧ k ≤ Int.clog b r.high) ∧
      (logExponents r.low r.high b r.step).head? = some (Int.log b r.low) := by
  have hgv : r.generate_values =
      .ok (((logExponents r.low r.high b r.step).map (fun k => (b : ℚ) ^ k)).filter
        (fun v => decide (r.low ≤ v) && decide (v ≤ r.high))) := by
    unfold RangeParameter.generate_values
    rw [if_neg (fun hc => hc.elim (fun hlt => absurd h1 (not_le.mpr hlt))
      (fun hle => absurd h2 (not_lt.mpr hle))), h3]
  have hmemiff : ∀ v, v ∈ ((logExponents r.low r.high b r.step).map
        (fun k => (b : ℚ) ^ k)).filter (fun v => decide (r.low ≤ v) && decide (v ≤ r.high)) ↔
      ∃ k : ℤ, k ∈ logExponents r.low r.high b r.step ∧
        v = (b : ℚ) ^ k ∧ r.low ≤ v ∧ v ≤ r.high := by
    intro v
    rw [List.mem_filter, List.mem_map]
    constructor
    · rintro ⟨⟨k, hk, rfl⟩, hp⟩
      simp only [Bool.and_eq_true, decide_eq_true_eq] at hp
      exact ⟨k, hk, rfl, hp.1, hp.2⟩
    · rintro ⟨k, hk, rfl, hl, hh⟩
      refine ⟨⟨k, hk, rfl⟩, ?_⟩
      simp only [Bool.and_eq_true, decide_eq_true_eq]
      exact ⟨hl, hh⟩
  have hs : (0 : ℤ) < ⌈r.step⌉ := Int.ceil_pos.mpr h2
  have hhigh : (0 : ℚ) < r.high := lt_of_lt_of_le hlow h1
  have he : Int.log b r.low ≤ Int.clog b r.high :=
    le_trans (Int.log_mono_right hlow h1) (log_le_clog b hb r.high hhigh)
  have hprog : ∀ k ∈ logExponents r.low r.high b r.step,
      ∃ i : ℕ, k = Int.log b r.low + (i : ℤ) * ⌈r.step⌉ := by
    intro k hk
    obtain ⟨i, _, rfl⟩ := List.mem_map.mp hk
    exact ⟨i, rfl⟩
  have hbounds : ∀ k ∈ logExponents r.low r.high b r.step,
      Int.log b r.low ≤ k ∧ k ≤ Int.clog b r.high := by
    intro k hk
    obtain ⟨i, hi, rfl⟩ := List.mem_map.mp hk
    rw [List.mem_range] at hi
    have hnn : (0 : ℤ) ≤ (Int.clog b r.high - Int.log b r.low) / ⌈r.step⌉ :=
      Int.ediv_nonneg (sub_nonneg.mpr he) hs.le
    have hile : (i : ℤ) ≤ (Int.clog b r.high - Int.log b r.low) / ⌈r.step⌉ := by
      have : i ≤ ((Int.clog b r.high - Int.log b r.low) / ⌈r.step⌉).toNat :=
        Nat.lt_succ_iff.mp hi
      exact (Int.le_toNat hnn).mp this
    have hmul : (i : ℤ) * ⌈r.step⌉ ≤ Int.clog b r.high - Int.log b r.low :=
      (Int.le_ediv_iff_mul_le hs).mp hile
    constructor
    · have : (0 : ℤ) ≤ (i : ℤ) * ⌈r.step⌉ := mul_nonneg (Int.natCast_nonneg i) hs.le
      omega
    · omega
  have hhead : (logExponents r.low r.high b r.step).head? = some (Int.log b r.low) := by
    unfold logExponents
    rw [← List.get?_zero, List.get?_map, List.get?_range (Nat.succ_pos _)]
    simp
  refine ⟨_, hgv, hmemiff, ?_, hprog, hbounds, hhead⟩
  intro v hv
  obtain ⟨k, _, rfl, hl, hh⟩ := (hmemiff v).mp hv
  exact ⟨⟨k, rfl⟩, hl, hh⟩


/-- Closed instance for `log_range_generate_values_spec`: the notebook-style
range low=1/10, high=10, step=1, log_base=10 satisfies the hypotheses, so
its generated values are exactly the in-range powers of ten over exponents
from floor(log10(1/10)) to ceil(log10(10)). -/
theorem log_range_generate_values_spec_witness :
    ((1/10 : ℚ) ≤ 10 ∧ (0 : ℚ) < 1 ∧ (0 : ℚ) < 1/10) ∧
    ∃ vs, RangeParameter.generate_values ⟨"step_size", 1/10, 10, 1, some 10⟩ = .ok vs ∧
      (∀ v, v ∈ vs ↔ ∃ k : ℤ, k ∈ logExponents (1/10) 10 10 1 ∧
        v = (10 : ℚ) ^ k ∧ (1/10 : ℚ) ≤ v ∧ v ≤ 10) ∧
      (∀ v ∈ vs, (∃ k : ℤ, v = (10 : ℚ) ^ k) ∧ (1/10 : ℚ) ≤ v ∧ v ≤ 10) ∧
      (∀ k ∈ logExponents (1/10) 10 10 1,
        ∃ i : ℕ, k = Int.log 10 ((1/10 : ℚ)) + (i : ℤ) * ⌈(1 : ℚ)⌉) ∧
      (∀ k ∈ logExponents (1/10) 10 10 1,
        Int.log 10 ((1/10 : ℚ)) ≤ k ∧ k ≤ Int.clog 10 ((10 : ℚ))) ∧
      (logExponents (1/10) 10 10 1).head? = some (Int.log 10 ((1/10 : ℚ))) :=
  ⟨⟨by norm_num, by norm_num, by norm_num⟩,
    log_range_generate_values_spec ⟨"step_size", 1/10, 10, 1, some 10⟩ 10
      (by norm_num) (by norm_num) rfl (by norm_num) (by norm_num)⟩
